import Mathlib

/-!
# Verification of the SentenceDiagrammer layout engine

Shallow embedding of `src/diagrammer.py`, `src/app.py` and
`src/error_handling.py` from the SentenceDiagrammer repository, together
with theorems settling the frozen claims about its specification.

Conventions of the embedding:
* Constituency trees (`nltk.Tree`) become `PTree`: an internal node is a
  label with an ordered list of children, a leaf is a bare word string.
* Coordinates are rationals (`ℚ`); Python floats are only ever produced
  here by `+ - * /` on small literals, which are exact.
* Matplotlib drawing calls become an accumulated list of `Prim`
  primitives, returned in emission order.
* Python runtime failures (indexing `[0]` / `[-1]` into an empty list,
  calling `.label()` on a bare string) become `Option.none`.
* The mutually recursive handlers take a `fuel : Nat` argument consumed
  once per call; `fuel = 0` yields `none`.  Every loop of the source is a
  named structurally recursive function over the child list so that the
  recursion is structural and all definitions evaluate by `decide`.
-/

/-- A constituency parse tree: `nltk.Tree` nodes carry a category label and
an ordered list of children; leaves are bare word strings. -/
inductive PTree where
  | leaf (word : String)
  | node (label : String) (children : List PTree)
deriving Repr

mutual
/-- Structural equality test for trees (nltk `Tree.__eq__` is structural,
which Python's `in` uses on line 309). -/
def PTree.beq : PTree → PTree → Bool
  | .leaf a, .leaf b => a == b
  | .node a cs, .node b ds => a == b && PTree.beqs cs ds
  | _, _ => false

/-- Structural equality test for lists of trees. -/
def PTree.beqs : List PTree → List PTree → Bool
  | [], [] => true
  | t :: ts, u :: us => PTree.beq t u && PTree.beqs ts us
  | _, _ => false
end

mutual
theorem PTree.beq_iff : ∀ a b : PTree, PTree.beq a b = true ↔ a = b
  | .leaf _, .leaf _ => by simp [PTree.beq]
  | .leaf _, .node _ _ => by simp [PTree.beq]
  | .node _ _, .leaf _ => by simp [PTree.beq]
  | .node a cs, .node b ds => by
      simp [PTree.beq, PTree.beqs_iff cs ds]

theorem PTree.beqs_iff : ∀ as bs : List PTree, PTree.beqs as bs = true ↔ as = bs
  | [], [] => by simp [PTree.beqs]
  | [], _ :: _ => by simp [PTree.beqs]
  | _ :: _, [] => by simp [PTree.beqs]
  | a :: as, b :: bs => by simp [PTree.beqs, PTree.beq_iff a b, PTree.beqs_iff as bs]
end

instance : DecidableEq PTree := fun a b => decidable_of_iff _ (PTree.beq_iff a b)

/-- Python's binary `max(a, b)` (kernel reducible on `ℚ`). -/
def py_max (a b : ℚ) : ℚ := if a < b then b else a

/-- `tree.label()` — only ever called on internal nodes in the source; we
give leaves the empty label. -/
def PTree.label : PTree → String
  | .leaf _ => ""
  | .node l _ => l

/-- The ordered children of a node (`for child in tree`); empty for a leaf. -/
def PTree.children : PTree → List PTree
  | .leaf _ => []
  | .node _ cs => cs

mutual
/-- `tree.leaves()` — the leaf words of a subtree in order. -/
def PTree.leaves : PTree → List String
  | .leaf w => [w]
  | .node _ cs => PTree.leavesOfList cs

/-- Leaves of a list of trees, concatenated in order. -/
def PTree.leavesOfList : List PTree → List String
  | [] => []
  | t :: ts => t.leaves ++ PTree.leavesOfList ts
end

/-- `' '.join(tree.leaves())`. -/
def joinLeaves (t : PTree) : String :=
  String.intercalate " " t.leaves

/-- `s.startswith(pre)` over the underlying character lists (kernel
reducible, unlike `String.startsWith`). -/
def py_startswith (s pre : String) : Bool :=
  go pre.data s.data
where
  go : List Char → List Char → Bool
    | [], _ => true
    | _ :: _, [] => false
    | a :: as, b :: bs => a == b && go as bs

/-- Line style accepted by `draw_line` ('solid' or 'dashed'; any other
string raises in the source and is never passed). -/
inductive LStyle where
  | solid
  | dashed
deriving DecidableEq, Repr

/-- A drawable primitive: an anchored text label (`ax.text`) or a line
segment (`ax.plot`), in the order matplotlib receives them. -/
inductive Prim where
  | text (s : String) (x y : ℚ) (ha : String) (rot : ℚ)
  | line (sx sy ex ey : ℚ) (style : LStyle)
deriving DecidableEq, Repr

/-- `draw_line(ax, start_pos, end_pos, line_style)` — one segment. -/
def draw_line (sp ep : ℚ × ℚ) (style : LStyle) : List Prim :=
  [.line sp.1 sp.2 ep.1 ep.2 style]

/-- Line 86 of `draw_text`:
`m = (y2_rot - y1_rot) / (x2_rot - x1_rot) if x2_rot != x1_rot else float('inf')`.
`none` models the infinite slope: the division is guarded behind the
`x2_rot != x1_rot` test and is not evaluated when the endpoints share an
x-coordinate. -/
def slope_if (y2r y1r x2r x1r : ℚ) : Option ℚ :=
  if x2r ≠ x1r then some ((y2r - y1r) / (x2r - x1r)) else none

/-- `draw_text(ax, text, x, y, ha, va, rotate, head_y)` — returns the
emitted primitives together with the `(width, height)` the source returns.
The hard-coded `width = 10` / `height = 10` of lines 71-72 is kept. -/
def draw_text (text : String) (x y : ℚ) (ha : String) (rotate : Bool)
    (head_y : Option ℚ) : List Prim × ℚ × ℚ :=
  let width : ℚ := 10
  let height : ℚ := 10
  let x1 := x - width / 2
  let _y1 := y + 1
  let x2 := x + width / 2
  match rotate, head_y with
  | true, some hy =>
      let x1r := x
      let y1r := hy
      let x2r := x + width
      let y2r := hy + height
      match slope_if y2r y1r x2r x1r with
      | some m =>
          if m ≠ 0 then
            let ix := x1r + (hy - y1r) / m
            (draw_line (ix, hy) (x2r, y2r) .solid ++
               [.text text ((ix + x2r) / 2 + 3) ((hy + y2r) / 2 + 3) ha (-45)],
             x2r - ix, y2r - hy)
          else
            ([.text text ((x1r + x2r) / 2 + 3) ((hy + y2r) / 2 + 3) ha (-45)] ++
               draw_line (x1r, hy) (x1r, y1r) .solid ++
               draw_line (x1r, y1r) (x2r, y2r) .solid,
             x2r - x1r, y2r - hy)
      | none =>
          ([.text text ((x1r + x2r) / 2 + 3) ((hy + y2r) / 2 + 3) ha (-45)] ++
             draw_line (x1r, hy) (x1r, y1r) .solid ++
             draw_line (x1r, y1r) (x2r, y2r) .solid,
           x2r - x1r, y2r - hy)
  | _, _ =>
      ([.text text x y ha 0] ++ draw_line (x1, y) (x2, y) .solid, width, height)

/-- Lines 276-282: the verb-collection loop of `process_vp`.  Starting from
`verb_label = ""`, `verb_width = 5`, every child tagged `VB*` or `MD`
appends its joined leaves to the label and adds 5 to the width. -/
def vp_verb_fold (cs : List PTree) : String × ℚ :=
  cs.foldl
    (fun acc c =>
      if py_startswith c.label "VB" || c.label == "MD" then
        (acc.1 ++ joinLeaves c, acc.2 + 5)
      else acc)
    ("", 5)

/-- Lines 156-160: the adverb loop of `process_modifier`'s ADJP/ADVP
branch (pure: only `draw_text` and `draw_line` calls). -/
def pm_advs_loop (adv_x initial_offset : ℚ) : List (Nat × PTree) → List Prim
  | [] => []
  | (i, adverb) :: rest =>
      let adv_label := joinLeaves adverb
      let adv_y := initial_offset + (i : ℚ) * 10
      (draw_text adv_label adv_x adv_y "center" true (some adv_y)).1 ++
        draw_line (adv_x, adv_y) (adv_x + 4, adv_y - 4) .solid ++
        pm_advs_loop adv_x initial_offset rest

/-- The shared modifier loop shape (lines 204-207, 259-264, 287-291,
363-367): for each child whose label lies in `labels`, call the modifier
handler at the running x, add its width to the running total and advance
the running x.  The accumulator is `(prims, total_mod_width, mod_x)`. -/
def mods_loop (pm : PTree → ℚ → ℚ → ℚ → Option (List Prim × ℚ))
    (labels : List String) (y : ℚ) :
    List PTree → List Prim × ℚ × ℚ → Option (List Prim × ℚ × ℚ)
  | [], acc => some acc
  | c :: rest, acc =>
      if c.label ∈ labels then do
        let (p, w) ← pm c acc.2.2 y y
        mods_loop pm labels y rest (acc.1 ++ p, acc.2.1 + w, acc.2.2 + w)
      else mods_loop pm labels y rest acc

/-- Lines 186-193: the coordinated-clause loop of `process_s`.  `items` is
`enumerate(s_nodes)`, `n = len(s_nodes)`; the accumulator is
`(prims, total_width, total_height)`. -/
def s_cc_loop (ps : PTree → ℚ → ℚ → Option (List Prim × ℚ × ℚ))
    (cc_label : String) (x y : ℚ) (n : Nat) :
    List (Nat × PTree) → List Prim × ℚ × ℚ → Option (List Prim × ℚ × ℚ)
  | [], acc => some acc
  | (i, s_node) :: rest, acc => do
      let (p, w, h) ← ps s_node x (y + (i : ℚ) * 30)
      let conn : List Prim :=
        if i < n - 1 then
          let (tp, tw, _th) := draw_text cc_label x (y + (i : ℚ) * 30 + 15) "center" false none
          tp ++ draw_line (x - tw / 2, y + (i : ℚ) * 30) (x - tw / 2, y + (i : ℚ) * 30 + 15) .dashed ++
            draw_line (x + tw / 2, y + (i : ℚ) * 30 + 15) (x + tw / 2, y + (i : ℚ) * 30 + 30) .dashed
        else []
      s_cc_loop ps cc_label x y n rest
        (acc.1 ++ p ++ conn, py_max acc.2.1 w, acc.2.2 + h)

/-- Lines 212-217: the SBAR loop of `process_s`.  The accumulator is
`(prims, sbar_x)`; the dashed connector is drawn after each clause. -/
def s_sbar_loop (psb : PTree → ℚ → ℚ → Option (List Prim × ℚ × ℚ))
    (predicate_x predicate_width y : ℚ) :
    List PTree → List Prim × ℚ → Option (List Prim × ℚ)
  | [], acc => some acc
  | sb :: rest, acc => do
      let (p, w, _h) ← psb sb acc.2 (y + 20)
      let l := draw_line (predicate_x + predicate_width / 2, y) (acc.2, y + 20) .dashed
      s_sbar_loop psb predicate_x predicate_width y rest (acc.1 ++ p ++ l, acc.2 + w + 2)

/-- Lines 231-237: the coordinated-NP loop of `process_np`.  `items` is
`enumerate(np_nodes)`; the accumulator is `(prims, total_width)`. -/
def np_cc_loop (pn : PTree → ℚ → ℚ → Option (List Prim × ℚ × ℚ))
    (cc_label : String) (x y total_height : ℚ) (n : Nat) :
    List (Nat × PTree) → List Prim × ℚ → Option (List Prim × ℚ)
  | [], acc => some acc
  | (i, np_node) :: rest, acc => do
      let yi := y + (i : ℚ) * 8 - total_height / 2
      let (p, w, _h) ← pn np_node x yi
      let conn : List Prim :=
        if i < n - 1 then
          let (tp, tw, _th) := draw_text cc_label x yi "center" false none
          tp ++ draw_line (x - tw / 2, yi) (x - tw / 2, yi + 4) .dashed ++
            draw_line (x + tw / 2, yi + 4) (x + tw / 2, yi + 8) .dashed
        else []
      np_cc_loop pn cc_label x y total_height n rest (acc.1 ++ p ++ conn, py_max acc.2 w)

/-- Lines 243-251: the head-selection loop of `process_np`.  The
accumulator is `(prims, head_label, head_width, head_buffer)`: children
tagged `NN*` or `PRP` append their joined leaves to the label and add 5 to
the width; an `NP` child is laid out recursively, adds its width, and
resets the buffer to that width. -/
def np_head_loop (pn : PTree → ℚ → ℚ → Option (List Prim × ℚ × ℚ)) (x y : ℚ) :
    List PTree → List Prim × String × ℚ × ℚ → Option (List Prim × String × ℚ × ℚ)
  | [], acc => some acc
  | c :: rest, acc =>
      if py_startswith c.label "NN" || c.label == "PRP" then
        np_head_loop pn x y rest (acc.1, acc.2.1 ++ joinLeaves c, acc.2.2.1 + 5, acc.2.2.2)
      else if c.label == "NP" then do
        let (p, w, _h) ← pn c x y
        np_head_loop pn x y rest (acc.1 ++ p, acc.2.1, acc.2.2.1 + w, w)
      else np_head_loop pn x y rest acc

/-- Lines 314-323: the general complement loop of `process_vp` (taken when
the number of NP complements differs from 2).  The accumulator is
`(prims, comp_x)`; each complement gets the slanted separator from
`(separator_x-2, y-6)` to `(separator_x+2, y)` before being laid out. -/
def vp_comps_loop (pn pa : PTree → ℚ → ℚ → Option (List Prim × ℚ × ℚ)) (y : ℚ) :
    List PTree → List Prim × ℚ → Option (List Prim × ℚ)
  | [], acc => some acc
  | comp :: rest, acc => do
      let separator_x := acc.2
      let cx := acc.2 + 2
      let l := draw_line (separator_x - 2, y - 6) (separator_x + 2, y) .solid
      let (p, comp_width) ←
        if comp.label == "NP" then do
          let (p, w, _h) ← pn comp cx y
          pure (p, w)
        else if comp.label == "ADJP" then do
          let (p, w, _h) ← pa comp cx y
          pure (p, w)
        else pure ([], (0 : ℚ))
      vp_comps_loop pn pa y rest (acc.1 ++ l ++ p, cx + comp_width + 2)

/-- Lines 309-312: the leftover-complement loop of the two-NP branch of
`process_vp` (only ADJP complements are handled). -/
def vp_extra_adjp_loop (pa : PTree → ℚ → ℚ → Option (List Prim × ℚ × ℚ)) (y : ℚ) :
    List PTree → List Prim × ℚ → Option (List Prim × ℚ)
  | [], acc => some acc
  | comp :: rest, acc =>
      if comp.label == "ADJP" then do
        let (p, w, _h) ← pa comp acc.2 y
        vp_extra_adjp_loop pa y rest (acc.1 ++ p, acc.2 + w)
      else vp_extra_adjp_loop pa y rest acc

mutual

/-- `process_s(ax, tree, x, y)` (lines 176-218). -/
def process_s : Nat → PTree → ℚ → ℚ → Option (List Prim × ℚ × ℚ)
  | 0, _, _, _ => none
  | fuel + 1, t, x, y =>
    match t with
    | .leaf _ => none
    | .node _ cs =>
      if cs.any (fun c => c.label == "CC") then do
        let s_nodes := cs.filter (fun c => c.label == "S")
        let cc ← (cs.filter (fun c => c.label == "CC")).head?
        let cc_label := joinLeaves cc
        s_cc_loop (fun s a b => process_s fuel s a b) cc_label x y
          s_nodes.length s_nodes.enum ([], 0, 0)
      else do
        let np ← (cs.filter (fun c => c.label == "NP")).head?
        let vp ← (cs.filter (fun c => c.label == "VP")).head?
        let (sp, subject_width, subject_height) ← process_np fuel np x y
        let separator_x := x + subject_width + 2
        let l1 := draw_line (separator_x, y + 3) (separator_x, y - 6) .solid
        let l2 := draw_line (separator_x - 2, y) (separator_x + 2, y) .solid
        let predicate_x := separator_x + 5
        let (ap, pred_mod_width, _mx) ←
          mods_loop (fun c a b hb => process_modifier fuel c a b hb) ["ADVP"] y cs
            ([], 5, predicate_x + 5)
        let l3 := draw_line (separator_x, y) (predicate_x + pred_mod_width, y) .solid
        let (vpp, predicate_width, predicate_height) ←
          process_vp fuel vp (predicate_x + pred_mod_width) y
        let sbar_nodes := cs.filter (fun c => c.label == "SBAR")
        let (sbp, _sx) ←
          s_sbar_loop (fun sb a b => process_sbar fuel sb a b) predicate_x predicate_width y
            sbar_nodes ([], predicate_x + predicate_width + 2)
        some (sp ++ l1 ++ l2 ++ ap ++ l3 ++ vpp ++ sbp,
              subject_width + predicate_width + 4,
              py_max subject_height predicate_height)

/-- `process_np(ax, tree, x, y)` (lines 221-271). -/
def process_np : Nat → PTree → ℚ → ℚ → Option (List Prim × ℚ × ℚ)
  | 0, _, _, _ => none
  | fuel + 1, t, x, y =>
    match t with
    | .leaf _ => none
    | .node _ cs =>
      if cs.any (fun c => c.label == "CC") then do
        let np_nodes := cs.filter (fun c => c.label == "NP")
        let cc ← (cs.filter (fun c => c.label == "CC")).head?
        let cc_label := joinLeaves cc
        let total_height : ℚ := (np_nodes.length : ℚ) * 8
        let (p, total_width) ←
          np_cc_loop (fun s a b => process_np fuel s a b) cc_label x y total_height
            np_nodes.length np_nodes.enum ([], 0)
        some (p, total_width, total_height)
      else do
        let (hp, head_label, head_width, head_buffer) ←
          np_head_loop (fun s a b => process_np fuel s a b) x y cs ([], "", 5, 0)
        let (mp, total_mod_width, _mx) ←
          mods_loop (fun c a b hb => process_modifier fuel c a b hb)
            ["DT", "PDT", "WDT", "CD", "PRP$", "JJ", "JJR", "JJS", "PP", "ADJP"] y cs
            ([], head_buffer, x + 2 + head_buffer)
        let baseline_start := x
        let baseline_end := baseline_start + py_max head_width total_mod_width
        let head_x := (baseline_start + baseline_end) / 2
        let tp := (draw_text head_label head_x y "center" false none).1
        let bl := draw_line (baseline_start, y) (baseline_end, y) .solid
        some (hp ++ mp ++ tp ++ bl, total_mod_width, 10)

/-- `process_vp(ax, tree, x, y)` (lines 273-329). -/
def process_vp : Nat → PTree → ℚ → ℚ → Option (List Prim × ℚ × ℚ)
  | 0, _, _, _ => none
  | fuel + 1, t, x, y =>
    match t with
    | .leaf _ => none
    | .node _ cs => do
      let (verb_label, verb_width) := vp_verb_fold cs
      let (mp, total_mod_width, _mx) ←
        mods_loop (fun c a b hb => process_modifier fuel c a b hb)
          ["RB", "RBR", "RBS", "ADVP", "PP"] y cs ([], 0, x + 5)
      let verb_baseline_start := x
      let verb_baseline_end := verb_baseline_start + py_max verb_width total_mod_width
      let complements := cs.filter (fun c => c.label ∈ ["NP", "ADJP"])
      let (cp, comp_x) ← vp_complements fuel complements y (verb_baseline_end + 2)
      let tp := (draw_text verb_label (verb_baseline_start + verb_width / 2) y "center" false none).1
      let bl := draw_line (verb_baseline_start, y) (comp_x, y) .solid
      some (mp ++ cp ++ tp ++ bl, comp_x - x, 10)

/-- Lines 296-323 of `process_vp`: complement handling.  When exactly two
of the complements are NPs (`if len(objects) == 2`), the first is the
indirect object and the second the direct object; otherwise every
complement is laid out by the general loop.  `comp_x0` is the
`comp_x = verb_baseline_end + 2` of line 298. -/
def vp_complements : Nat → List PTree → ℚ → ℚ → Option (List Prim × ℚ)
  | 0, _, _, _ => none
  | fuel + 1, complements, y, comp_x0 =>
      let objects := complements.filter (fun c => c.label == "NP")
      match objects with
      | [indirect_obj, direct_obj] => do
          let (iop, _iw, _ih) ← process_indirect_object fuel indirect_obj comp_x0 y y
          let c1 := comp_x0 + 10
          let l1 := draw_line (c1, y) (c1 + 4, y) .solid
          let l2 := draw_line (c1 + 2, y - 6) (c1 + 2, y) .solid
          let c2 := c1 + 4
          let (dop, do_width, _dh) ← process_np fuel direct_obj c2 y
          vp_extra_adjp_loop (fun s a b => process_adjp fuel s a b) y
            (complements.filter (fun c => decide (c ∉ objects)))
            (iop ++ l1 ++ l2 ++ dop, c2 + do_width)
      | _ =>
          vp_comps_loop (fun s a b => process_np fuel s a b)
            (fun s a b => process_adjp fuel s a b) y complements
            ([], comp_x0)

/-- `process_pp(ax, tree, x, y, head_y)` (lines 332-344).  Note the
constant `return 20, 10` of line 344. -/
def process_pp : Nat → PTree → ℚ → ℚ → ℚ → Option (List Prim × ℚ × ℚ)
  | 0, _, _, _, _ => none
  | fuel + 1, t, x, y, head_y =>
    match t with
    | .leaf _ => none
    | .node _ cs => do
      let prep ← (cs.filter (fun c => c.label == "IN")).head?
      let prep_label := joinLeaves prep
      let slant_length : ℚ := 10
      let prep_x := x + slant_length / 2
      let prep_y := y + slant_length
      let p1 := (draw_text prep_label prep_x prep_y "center" true (some head_y)).1
      let obj ← (cs.filter (fun c => c.label == "NP")).head?
      let obj_x := x + slant_length
      let (op, _obj_width, _oh) ← process_np fuel obj obj_x y
      let dl := draw_line (prep_x, prep_y) (obj_x, y) .dashed
      some (p1 ++ op ++ dl, 20, 10)

/-- `process_indirect_object(ax, tree, x, y, head_y)` (lines 346-352). -/
def process_indirect_object : Nat → PTree → ℚ → ℚ → ℚ → Option (List Prim × ℚ × ℚ)
  | 0, _, _, _, _ => none
  | fuel + 1, t, x, y, head_y => do
      let slant_length : ℚ := 10
      let io_x := x + slant_length
      let io_y := y + slant_length
      let l := draw_line (x, head_y) (io_x, io_y) .solid
      let (p, w, h) ← process_np fuel t io_x io_y
      some (l ++ p, w, h)

/-- `process_adjp(ax, tree, x, y)` (lines 354-374). -/
def process_adjp : Nat → PTree → ℚ → ℚ → Option (List Prim × ℚ × ℚ)
  | 0, _, _, _ => none
  | fuel + 1, t, x, y =>
    match t with
    | .leaf _ => none
    | .node _ cs => do
      let adj ← (cs.filter (fun c => c.label ∈ ["JJ", "JJR", "JJS"])).head?
      let adj_label := joinLeaves adj
      let head_width : ℚ := 10
      let (mp, total_mod_width, _mx) ←
        mods_loop (fun c a b hb => process_modifier fuel c a b hb) ["RB"] y cs ([], 0, x)
      let baseline_start := x
      let baseline_end := baseline_start + py_max head_width total_mod_width
      let head_x := (baseline_start + baseline_end) / 2
      let tp := (draw_text adj_label head_x y "center" false none).1
      let bl := draw_line (baseline_start, y) (baseline_end, y) .solid
      some (mp ++ tp ++ bl, head_width, 10)

/-- `process_sbar(ax, tree, x, y)` (lines 377-390). -/
def process_sbar : Nat → PTree → ℚ → ℚ → Option (List Prim × ℚ × ℚ)
  | 0, _, _, _ => none
  | fuel + 1, t, x, y =>
    match t with
    | .leaf _ => none
    | .node _ cs => do
      let conj := cs.filter (fun c => c.label == "IN")
      let conj_label := match conj.head? with
        | some c => joinLeaves c
        | none => ""
      let s_node ← (cs.filter (fun c => c.label == "S")).head?
      let (cp, s_x) :=
        match conj.head? with
        | some _ => ((draw_text conj_label x y "center" false none).1,
                     x + (conj_label.length : ℚ) * 3 / 2 + 2)
        | none => ([], x)
      let (sp, w, h) ← process_s fuel s_node s_x y
      let dl := match conj.head? with
        | some _ => draw_line (x, y) (s_x, y) .dashed
        | none => []
      some (cp ++ sp ++ dl,
            w + (match conj.head? with
                 | some _ => (conj_label.length : ℚ) * 3 / 2 + 2
                 | none => 0),
            h)

/-- `process_modifier(ax, node, x, y, head_y)` (lines 108-162) — returns
the emitted primitives and the width the source returns. -/
def process_modifier : Nat → PTree → ℚ → ℚ → ℚ → Option (List Prim × ℚ)
  | 0, _, _, _, _ => none
  | fuel + 1, t, x, y, head_y =>
    match t with
    | .leaf _ => some ([], 0)
    | .node lab cs =>
      if lab ∈ ["DT", "PDT", "WDT", "CD", "PRP$", "JJ", "JJR", "JJS", "RB", "RBR", "RBS"] then
        let mod_label := joinLeaves (.node lab cs)
        some ((draw_text mod_label x (y + 10) "center" true (some head_y)).1, 10)
      else if lab == "PP" then do
        let prep ← (cs.filter (fun c => c.label == "IN")).head?
        let prep_label := joinLeaves prep
        let p1 := (draw_text prep_label x (y + 10) "center" true (some head_y)).1
        let np ← (cs.filter (fun c => c.label == "NP")).head?
        let (p2, np_width, _h) ← process_np fuel np (x + 10) (y + 10)
        some (p1 ++ p2, np_width + 10)
      else if lab ∈ ["ADJP", "ADVP"] then do
        let (main_word, adverbs) ←
          if lab == "ADJP" then do
            let mw ← (cs.filter (fun c => c.label == "JJ")).head?
            pure (mw, (cs.filter (fun c => c.label == "RB")).reverse)
          else do
            let mw ← (cs.filter (fun c => c.label == "RB")).getLast?
            pure (mw, (cs.filter (fun c => c.label == "RB")).dropLast.reverse)
        let total_width : ℚ := 10
        let adj_label := joinLeaves main_word
        let ap := (draw_text adj_label x (y + 10) "center" true (some head_y)).1
        let initial_offset := y + 10
        let adv_x := x + 2
        some (ap ++ pm_advs_loop adv_x initial_offset adverbs.enum, total_width)
      else
        some ([], 0)

end

/-- Result of `generate_diagram`: the dependency branch goes through the
external graphviz renderer and yields no layout primitives of ours; the
reed-kellogg branch carries the primitives produced by `process_s`. -/
inductive DiagramOut where
  | dependency
  | reedKellogg (prims : List Prim)
deriving DecidableEq, Repr

/-- The message of the `ValueError` raised on line 34 (quotes elided). -/
def unsupported_style_msg : String :=
  "Only dependency and reed-kellogg styles are currently supported."

/-- `generate_diagram(sentence, style)` (lines 7-34), after the external
parse: dispatch on the style string; the reed-kellogg branch lays the tree
out with `process_s(ax, parse_tree, x=0, y=10)`. -/
def generate_diagram (fuel : Nat) (parse_tree : PTree) (style : String) :
    Except String DiagramOut :=
  if style == "dependency" then .ok .dependency
  else if style == "reed-kellogg" then
    match process_s fuel parse_tree 0 10 with
    | some (prims, _, _) => .ok (.reedKellogg prims)
    | none => .error "structural failure during layout"
  else .error unsupported_style_msg

/-- `check_input(sentence)` from `src/error_handling.py`: Python's
`not sentence or len(sentence.strip()) == 0` (strip is re-implemented over
the character list so it evaluates in the kernel). -/
def check_input (sentence : String) : Option String :=
  let stripped := ((sentence.data.dropWhile Char.isWhitespace).reverse.dropWhile
      Char.isWhitespace).reverse
  if sentence == "" || stripped.length == 0 then
    some "Please enter a valid sentence."
  else none

/-- One entry of the `results` list built by `index` in `src/app.py`. -/
inductive EntryOut where
  | diagram (d : DiagramOut)
  | err (msg : String)
deriving DecidableEq, Repr

/-- The POST branch of `index` (lines 14-29 of `src/app.py`): validate the
input, split it into sentences (via the external NLP `split_sentences` and
`parse`, passed as parameters), and diagram each sentence inside its own
try/except so one failure is recorded in that entry only. -/
def index_post (split : String → List String) (parse : String → PTree)
    (fuel : Nat) (input_text style : String) : List (String × EntryOut) :=
  match check_input input_text with
  | some error => [(input_text, .err error)]
  | none =>
      (split input_text).map (fun sentence =>
        match generate_diagram fuel (parse sentence) style with
        | .ok d => (sentence, .diagram d)
        | .error e => (sentence, .err e))

/-! ## Helper definitions for stating the claims -/

/-- The primitive list of a layout result (`[]` when the call failed). -/
def prims_of (r : Option (List Prim × ℚ × ℚ)) : List Prim :=
  match r with
  | some (p, _, _) => p
  | none => []

/-- A vertical segment that touches the baseline `y0` at exactly one of its
endpoints (so it does not cross it): the "non-piercing vertical tick". -/
def isVertTickAt (y0 : ℚ) (p : Prim) : Bool :=
  match p with
  | .line sx sy ex ey _ =>
      sx == ex && ((sy == y0 && !(ey == y0)) || (ey == y0 && !(sy == y0)))
  | _ => false

/-- `Except` success test for witnesses. -/
def diag_is_ok (r : Except String DiagramOut) : Bool :=
  match r with
  | .ok _ => true
  | .error _ => false

/-! ## Concrete trees used by counterexamples and witnesses -/

/-- `(NP (NN cat))` — a simple one-noun NP. -/
def np_nn_tree : PTree := .node "NP" [.node "NN" [.leaf "cat"]]

/-- `(VP (NP (NN cake)))` — a VP with no `VB*`/`MD` child. -/
def vp_noverb_tree : PTree := .node "VP" [.node "NP" [.node "NN" [.leaf "cake"]]]

/-- `(S (NP (NN John)) (VP (VBD ate) (NP (NN cake))))` — subject, verb and
one NP complement (a direct object). -/
def s_svo_tree : PTree := .node "S" [.node "NP" [.node "NN" [.leaf "John"]],
  .node "VP" [.node "VBD" [.leaf "ate"], .node "NP" [.node "NN" [.leaf "cake"]]]]

/-- `(NP (DT the))` — an NP with neither a noun nor a pronoun child. -/
def np_dt_tree : PTree := .node "NP" [.node "DT" [.leaf "the"]]

/-- An NP whose three JJ modifiers make its drawn span 30 units wide. -/
def np_wide_tree : PTree := .node "NP" [.node "NN" [.leaf "cat"],
  .node "JJ" [.leaf "big"], .node "JJ" [.leaf "red"], .node "JJ" [.leaf "old"]]

/-- `(PP (IN in) ...)` around `np_wide_tree`. -/
def pp_wide_tree : PTree := .node "PP" [.node "IN" [.leaf "in"], np_wide_tree]

/-- `(VP (VBD baked) (NP (PRP me)) (NP (NN cake)))` — two NP complements. -/
def vp_ditrans_tree : PTree := .node "VP" [.node "VBD" [.leaf "baked"],
  .node "NP" [.node "PRP" [.leaf "me"]], .node "NP" [.node "NN" [.leaf "cake"]]]

/-- `(S (S ...) (CC and) (S ...))` — two coordinated clauses. -/
def s_coord_tree : PTree := .node "S" [
  .node "S" [.node "NP" [.node "NN" [.leaf "he"]], .node "VP" [.node "VBD" [.leaf "ran"]]],
  .node "CC" [.leaf "and"],
  .node "S" [.node "NP" [.node "NN" [.leaf "she"]], .node "VP" [.node "VBD" [.leaf "spun"]]]]

/-- A two-sentence splitter for the batch-isolation witness. -/
def split_demo : String → List String := fun _ => ["ok", "bad"]

/-- A parser stub mapping "ok" to a diagrammable tree and everything else
to a bare leaf (on which `process_s` fails). -/
def parse_demo : String → PTree := fun s => if s == "ok" then s_svo_tree else .leaf "x"

/-! ## Fold identity lemmas -/

theorem vp_verb_fold_go (cs : List PTree) (acc : String × ℚ)
    (h : ∀ c ∈ cs, py_startswith c.label "VB" = false ∧ (c.label == "MD") = false) :
    cs.foldl
      (fun acc c =>
        if py_startswith c.label "VB" || c.label == "MD" then
          (acc.1 ++ joinLeaves c, acc.2 + 5)
        else acc)
      acc = acc := by
  induction cs generalizing acc with
  | nil => rfl
  | cons c rest ih =>
      obtain ⟨h1, h2⟩ := h c (List.mem_cons_self _ _)
      simp only [List.foldl_cons, h1, h2, Bool.or_self, Bool.false_eq_true, if_false]
      exact ih acc (fun d hd => h d (List.mem_cons_of_mem _ hd))

/-- With no `VB*`/`MD` child the verb fold of `process_vp` keeps its
initial state: empty label, width 5. -/
theorem vp_verb_fold_of_no_verb (cs : List PTree)
    (h : ∀ c ∈ cs, py_startswith c.label "VB" = false ∧ (c.label == "MD") = false) :
    vp_verb_fold cs = ("", 5) := by
  unfold vp_verb_fold
  exact vp_verb_fold_go cs ("", 5) h

/-- With no `NN*`/`PRP`/`NP` child the head-selection loop of `process_np`
keeps its accumulator unchanged, in particular the empty head label. -/
theorem np_head_loop_of_no_head (pn : PTree → ℚ → ℚ → Option (List Prim × ℚ × ℚ))
    (x y : ℚ) (cs : List PTree) (acc : List Prim × String × ℚ × ℚ)
    (h : ∀ c ∈ cs, py_startswith c.label "NN" = false ∧ (c.label == "PRP") = false ∧
      (c.label == "NP") = false) :
    np_head_loop pn x y cs acc = some acc := by
  induction cs generalizing acc with
  | nil => rfl
  | cons c rest ih =>
      obtain ⟨h1, h2, h3⟩ := h c (List.mem_cons_self _ _)
      simp only [np_head_loop, h1, h2, h3, Bool.or_self, Bool.false_eq_true, if_false]
      exact ih acc (fun d hd => h d (List.mem_cons_of_mem _ hd))

/-! ## Loop lemmas: each loop only appends to the primitive accumulator -/

theorem mods_loop_extends (pm : PTree → ℚ → ℚ → ℚ → Option (List Prim × ℚ))
    (labels : List String) (y : ℚ) :
    ∀ (cs : List PTree) (acc out : List Prim × ℚ × ℚ),
      mods_loop pm labels y cs acc = some out → ∃ t, out.1 = acc.1 ++ t := by
  intro cs
  induction cs with
  | nil =>
      intro acc out h
      simp only [mods_loop, Option.some.injEq] at h
      exact ⟨[], by rw [← h]; simp⟩
  | cons c rest ih =>
      intro acc out h
      simp only [mods_loop] at h
      by_cases hc : c.label ∈ labels
      · rw [if_pos hc] at h
        obtain ⟨⟨p, w⟩, _hp, h⟩ := Option.bind_eq_some.mp h
        obtain ⟨t, ht⟩ := ih _ _ h
        exact ⟨p ++ t, by simpa [List.append_assoc] using ht⟩
      · rw [if_neg hc] at h
        exact ih _ _ h

theorem s_sbar_loop_extends (psb : PTree → ℚ → ℚ → Option (List Prim × ℚ × ℚ))
    (px pw y : ℚ) :
    ∀ (sbars : List PTree) (acc out : List Prim × ℚ),
      s_sbar_loop psb px pw y sbars acc = some out → ∃ t, out.1 = acc.1 ++ t := by
  intro sbars
  induction sbars with
  | nil =>
      intro acc out h
      simp only [s_sbar_loop, Option.some.injEq] at h
      exact ⟨[], by rw [← h]; simp⟩
  | cons sb rest ih =>
      intro acc out h
      simp only [s_sbar_loop] at h
      obtain ⟨⟨p, w, hh⟩, _hp, h⟩ := Option.bind_eq_some.mp h
      obtain ⟨t, ht⟩ := ih _ _ h
      exact ⟨p ++ draw_line (px + pw / 2, y) (acc.2, y + 20) .dashed ++ t,
        by simpa [List.append_assoc] using ht⟩

theorem vp_extra_adjp_loop_extends (pa : PTree → ℚ → ℚ → Option (List Prim × ℚ × ℚ))
    (y : ℚ) :
    ∀ (comps : List PTree) (acc out : List Prim × ℚ),
      vp_extra_adjp_loop pa y comps acc = some out → ∃ t, out.1 = acc.1 ++ t := by
  intro comps
  induction comps with
  | nil =>
      intro acc out h
      simp only [vp_extra_adjp_loop, Option.some.injEq] at h
      exact ⟨[], by rw [← h]; simp⟩
  | cons c rest ih =>
      intro acc out h
      simp only [vp_extra_adjp_loop] at h
      by_cases hc : (c.label == "ADJP") = true
      · rw [if_pos hc] at h
        obtain ⟨⟨p, w, hh⟩, _hp, h⟩ := Option.bind_eq_some.mp h
        obtain ⟨t, ht⟩ := ih _ _ h
        exact ⟨p ++ t, by simpa [List.append_assoc] using ht⟩
      · rw [if_neg hc] at h
        exact ih _ _ h

theorem vp_comps_loop_extends
    (pn pa : PTree → ℚ → ℚ → Option (List Prim × ℚ × ℚ)) (y : ℚ) :
    ∀ (comps : List PTree) (acc out : List Prim × ℚ),
      vp_comps_loop pn pa y comps acc = some out → ∃ t, out.1 = acc.1 ++ t := by
  intro comps
  induction comps with
  | nil =>
      intro acc out h
      simp only [vp_comps_loop, Option.some.injEq] at h
      exact ⟨[], by rw [← h]; simp⟩
  | cons c rest ih =>
      intro acc out h
      simp only [vp_comps_loop] at h
      by_cases hnp : (c.label == "NP") = true
      · rw [if_pos hnp] at h
        obtain ⟨⟨p, w, hh⟩, _hp, h⟩ := Option.bind_eq_some.mp h
        obtain ⟨t, ht⟩ := ih _ _ h
        exact ⟨draw_line (acc.2 - 2, y - 6) (acc.2 + 2, y) .solid ++ p ++ t,
          by simpa [List.append_assoc] using ht⟩
      · rw [if_neg hnp] at h
        by_cases hadj : (c.label == "ADJP") = true
        · rw [if_pos hadj] at h
          obtain ⟨⟨p, w, hh⟩, _hp, h⟩ := Option.bind_eq_some.mp h
          obtain ⟨t, ht⟩ := ih _ _ h
          exact ⟨draw_line (acc.2 - 2, y - 6) (acc.2 + 2, y) .solid ++ p ++ t,
            by simpa [List.append_assoc] using ht⟩
        · rw [if_neg hadj] at h
          obtain ⟨t, ht⟩ := ih _ _ h
          exact ⟨draw_line (acc.2 - 2, y - 6) (acc.2 + 2, y) .solid ++ t,
            by simpa [List.append_assoc] using ht⟩

/-- Inside the general complement loop of `process_vp`, every NP complement
is preceded by the slanted separator from `(c-2, y-6)` to `(c+2, y)` (for
some running x-coordinate `c`) and is then laid out by the NP handler at
`c+2` on the verb baseline, with all its primitives in the output. -/
theorem vp_comps_loop_np_spec
    (pn pa : PTree → ℚ → ℚ → Option (List Prim × ℚ × ℚ)) (y : ℚ) :
    ∀ (comps : List PTree) (acc : List Prim × ℚ) (P : List Prim) (cxf : ℚ),
      vp_comps_loop pn pa y comps acc = some (P, cxf) →
      ∀ comp ∈ comps, (comp.label == "NP") = true →
      ∃ c p w h, Prim.line (c - 2) (y - 6) (c + 2) y .solid ∈ P ∧
        pn comp (c + 2) y = some (p, w, h) ∧ ∀ q ∈ p, q ∈ P := by
  intro comps
  induction comps with
  | nil =>
      intro acc P cxf h comp hc
      exact absurd hc (List.not_mem_nil _)
  | cons c0 rest ih =>
      intro acc P cxf h comp hcm hlab
      simp only [vp_comps_loop] at h
      rcases List.mem_cons.mp hcm with rfl | hmem
      · rw [if_pos hlab] at h
        obtain ⟨⟨p, w, hh⟩, hp, h⟩ := Option.bind_eq_some.mp h
        obtain ⟨t, ht⟩ := vp_comps_loop_extends pn pa y rest _ _ h
        refine ⟨acc.2, p, w, hh, ?_, hp, ?_⟩
        · rw [show P = (P, cxf).1 from rfl, ht]
          simp [draw_line]
        · intro q hq
          rw [show P = (P, cxf).1 from rfl, ht]
          simp [hq]
      · by_cases h0 : (c0.label == "NP") = true
        · rw [if_pos h0] at h
          obtain ⟨⟨p, w, hh⟩, _hp, h⟩ := Option.bind_eq_some.mp h
          exact ih _ _ _ h comp hmem hlab
        · rw [if_neg h0] at h
          by_cases h1 : (c0.label == "ADJP") = true
          · rw [if_pos h1] at h
            obtain ⟨⟨p, w, hh⟩, _hp, h⟩ := Option.bind_eq_some.mp h
            exact ih _ _ _ h comp hmem hlab
          · rw [if_neg h1] at h
            exact ih _ _ _ h comp hmem hlab

/-- Characterization of the coordinated-clause loop of `process_s`: the
returned width folds `py_max` over the clause widths, the returned height
sums the clause heights, the accumulator is only extended, and every
non-final clause index gets its two dashed connector segments. -/
theorem s_cc_loop_spec (ps : PTree → ℚ → ℚ → Option (List Prim × ℚ × ℚ))
    (cc : String) (x y : ℚ) (n : Nat) :
    ∀ (items : List (Nat × PTree)) (acc : List Prim × ℚ × ℚ) (P : List Prim) (W H : ℚ),
      s_cc_loop ps cc x y n items acc = some (P, W, H) →
      ∃ rs : List (List Prim × ℚ × ℚ),
        List.Forall₂ (fun (it : Nat × PTree) r => ps it.2 x (y + (it.1 : ℚ) * 30) = some r)
          items rs ∧
        W = (rs.map (fun r => r.2.1)).foldl py_max acc.2.1 ∧
        H = acc.2.2 + (rs.map (fun r => r.2.2)).sum ∧
        (∃ t, P = acc.1 ++ t) ∧
        (∀ it ∈ items, it.1 < n - 1 →
          Prim.line (x - 5) (y + (it.1 : ℚ) * 30) (x - 5) (y + (it.1 : ℚ) * 30 + 15) .dashed ∈ P ∧
          Prim.line (x + 5) (y + (it.1 : ℚ) * 30 + 15) (x + 5) (y + (it.1 : ℚ) * 30 + 30) .dashed ∈ P) := by
  intro items
  induction items with
  | nil =>
      intro acc P W H h
      simp only [s_cc_loop, Option.some.injEq] at h
      subst h
      refine ⟨[], List.Forall₂.nil, by simp, by simp, ⟨[], by simp⟩, ?_⟩
      intro it hit
      exact absurd hit (List.not_mem_nil _)
  | cons item rest ih =>
      intro acc P W H h
      obtain ⟨i, s⟩ := item
      simp only [s_cc_loop] at h
      obtain ⟨⟨p, w, hh⟩, hps, h⟩ := Option.bind_eq_some.mp h
      obtain ⟨rs, hall, hW, hH, ⟨t, ht⟩, hconn⟩ := ih _ _ _ _ h
      have step : ∀ (A B u : List Prim), P = A ++ B ++ u → ∃ v, P = A ++ v := by
        intro A B u hP
        exact ⟨B ++ u, by rw [hP, List.append_assoc]⟩
      refine ⟨(p, w, hh) :: rs, List.Forall₂.cons hps hall, ?_, ?_, ?_, ?_⟩
      · simpa using hW
      · rw [hH]; simp only [List.map_cons, List.sum_cons]; ring
      · obtain ⟨u1, hu1⟩ := step (acc.1 ++ (p, w, hh).1) _ t ht
        exact step acc.1 _ _ hu1
      · intro it hit hlt
        rcases List.mem_cons.mp hit with rfl | hmem
        · rw [ht]
          have h52 : (10 : ℚ) / 2 = 5 := by norm_num
          constructor <;>
            · simp only [if_pos hlt, draw_text, draw_line, h52]
              simp
        · exact hconn it hmem hlt

/-! ## Claim theorems -/

/-- C1: the spec's invariant `consumedWidth > 0` for any subtree with at
least one leaf is violated by the code.  On the one-leaf NP `(NP (NN cat))`
`process_np` returns `consumedWidth = 0`: line 271 returns
`total_mod_width`, ignoring the 10-unit head baseline it has just drawn
from x = 0 to x = 10 (visible as the two `Prim.line 0 0 10 0` segments). -/
theorem C1_np_width_zero :
    process_np 3 np_nn_tree 0 0 =
      some ([.text "cat" 5 0 "center" 0, .line 0 0 10 0 .solid, .line 0 0 10 0 .solid],
        0, 10) := by
  with_unfolding_all decide

/-- C2 counterexample: on the verbless VP `(VP (NP (NN cake)))`,
`process_vp` raises nothing — it succeeds and silently draws the empty
verb label at the centre of the verb slot. -/
theorem C2_counterexample :
    (process_vp 10 vp_noverb_tree 0 0).isSome = true ∧
    Prim.text "" (5 / 2) 0 "center" 0 ∈ prims_of (process_vp 10 vp_noverb_tree 0 0) := by
  with_unfolding_all decide

/-- C2 (amended): `process_vp` performs no missing-verb check: on a VP node
none of whose children is tagged `VB*` or `MD`, the verb fold keeps
`("", 5)` and, whenever the layout succeeds, the empty verb label is drawn
at `(x + 5/2, y)`; no error for the missing verb is raised. -/
theorem C2_amended (fuel : Nat) (lab : String) (cs : List PTree) (x y : ℚ)
    (P : List Prim) (W H : ℚ)
    (hverb : ∀ c ∈ cs, py_startswith c.label "VB" = false ∧ (c.label == "MD") = false)
    (hres : process_vp (fuel + 1) (.node lab cs) x y = some (P, W, H)) :
    vp_verb_fold cs = ("", 5) ∧ Prim.text "" (x + 5 / 2) y "center" 0 ∈ P := by
  have hv := vp_verb_fold_of_no_verb cs hverb
  refine ⟨hv, ?_⟩
  simp only [process_vp] at hres
  rw [hv] at hres
  obtain ⟨⟨mp, tmw, mx⟩, _hm, hres⟩ := Option.bind_eq_some.mp hres
  obtain ⟨⟨cp, cx⟩, _hc, hres⟩ := Option.bind_eq_some.mp hres
  simp only [Option.some.injEq, Prod.mk.injEq] at hres
  obtain ⟨hP, hW, hH⟩ := hres
  subst hP
  simp [draw_text, draw_line]

/-- C2 witness: the amended theorem at the concrete verbless VP. -/
theorem C2_amended_witness :
    ∃ P W H, process_vp (9 + 1) vp_noverb_tree 0 0 = some (P, W, H) ∧
      vp_verb_fold [PTree.node "NP" [PTree.node "NN" [PTree.leaf "cake"]]] = ("", 5) ∧
      Prim.text "" (0 + 5 / 2) 0 "center" 0 ∈ P := by
  rcases hev : process_vp (9 + 1) vp_noverb_tree 0 0 with _ | ⟨P, W, H⟩
  · exact absurd hev (by with_unfolding_all decide)
  · obtain ⟨h1, h2⟩ := C2_amended 9 "VP" [PTree.node "NP" [PTree.node "NN" [PTree.leaf "cake"]]]
      0 0 P W H (by decide) hev
    exact ⟨P, W, H, rfl, h1, h2⟩

/-- C3: any style other than "dependency" and "reed-kellogg" makes
`generate_diagram` fail with the unsupported-style error (the `ValueError`
of line 34) and, the result being an error, no primitives are produced. -/
theorem C3_unsupported_style (fuel : Nat) (t : PTree) (style : String)
    (h1 : style ≠ "dependency") (h2 : style ≠ "reed-kellogg") :
    generate_diagram fuel t style = .error unsupported_style_msg := by
  simp [generate_diagram, h1, h2]

/-- C3 witness: the unsupported style "arc-diagram". -/
theorem C3_witness :
    ("arc-diagram" ≠ "dependency") ∧ ("arc-diagram" ≠ "reed-kellogg") ∧
    generate_diagram 0 (.leaf "x") "arc-diagram" = .error unsupported_style_msg :=
  ⟨by decide, by decide,
    C3_unsupported_style 0 (.leaf "x") "arc-diagram" (by decide) (by decide)⟩

/-- C6 counterexample: on `(NP (DT the))` — no noun, no pronoun —
`process_np` draws an *empty* head label (the fallback to the subtree's
text, lines 253-254 of the source, is commented out): the only
horizontal text primitive is `""`, and no horizontal label "the" exists
anywhere in the output. -/
theorem C6_counterexample :
    Prim.text "" 5 0 "center" 0 ∈ prims_of (process_np 10 np_dt_tree 0 0) ∧
    (prims_of (process_np 10 np_dt_tree 0 0)).all
      (fun p => match p with
        | .text s _ _ _ rot => !(s == "the" && rot == 0)
        | _ => true) = true := by
  with_unfolding_all decide

/-- C6 (amended): `process_np` concatenates the leaves of the children
tagged `NN*` or `PRP` in tree order, with no priority between them and no
fallback: a non-coordinated NP with no `NN*`/`PRP` child (and no nested NP)
keeps the initial empty head label and head width 5, and the empty label is
what gets drawn at the baseline midpoint. -/
theorem C6_amended (fuel : Nat) (lab : String) (cs : List PTree) (x y : ℚ)
    (P : List Prim) (W H : ℚ)
    (hcc : cs.any (fun c => c.label == "CC") = false)
    (hhead : ∀ c ∈ cs, py_startswith c.label "NN" = false ∧ (c.label == "PRP") = false ∧
      (c.label == "NP") = false)
    (hres : process_np (fuel + 1) (.node lab cs) x y = some (P, W, H)) :
    ∃ tmw : ℚ, Prim.text "" ((x + (x + py_max 5 tmw)) / 2) y "center" 0 ∈ P := by
  simp only [process_np] at hres
  rw [hcc] at hres
  simp only [Bool.false_eq_true, if_false] at hres
  obtain ⟨⟨hp, hl, hw, hb⟩, hhl, hres⟩ := Option.bind_eq_some.mp hres
  rw [np_head_loop_of_no_head _ x y cs _ hhead] at hhl
  simp only [Option.some.injEq, Prod.mk.injEq] at hhl
  obtain ⟨h1, h2, h3, h4⟩ := hhl
  subst h1; subst h2; subst h3; subst h4
  obtain ⟨⟨mp, tmw, mx⟩, _hm, hres⟩ := Option.bind_eq_some.mp hres
  simp only [Option.some.injEq, Prod.mk.injEq] at hres
  obtain ⟨hP, hW, hH⟩ := hres
  subst hP
  refine ⟨tmw, ?_⟩
  simp [draw_text, draw_line]

/-- C6 witness: the amended theorem at `(NP (DT the))`. -/
theorem C6_amended_witness :
    ∃ P W H tmw, process_np (9 + 1) np_dt_tree 0 0 = some (P, W, H) ∧
      Prim.text "" ((0 + (0 + py_max 5 tmw)) / 2) 0 "center" 0 ∈ P := by
  rcases hev : process_np (9 + 1) np_dt_tree 0 0 with _ | ⟨P, W, H⟩
  · exact absurd hev (by with_unfolding_all decide)
  · obtain ⟨tmw, hmem⟩ := C6_amended 9 "NP" [PTree.node "DT" [PTree.leaf "the"]] 0 0 P W H
      (by decide) (by decide) hev
    exact ⟨P, W, H, tmw, rfl, hmem⟩

/-- C8: the slope computation of `draw_text` is guarded.  First conjunct:
whenever the two rotated endpoints share an x-coordinate, `slope_if`
takes the special infinite-slope case and evaluates no division.  Second
conjunct: in `draw_text` itself the rotated endpoints are `x` and `x + 10`,
so the slope is the well-defined value 1 and every rotated placement
returns normally (the diagonal segment plus the rotated label) — no
division error can reach the caller. -/
theorem C8_slope_guard :
    (∀ y2r y1r c : ℚ, slope_if y2r y1r c c = none) ∧
    (∀ (txt ha : String) (x y hy : ℚ),
      draw_text txt x y ha true (some hy) =
        ([.line x hy (x + 10) (hy + 10) .solid, .text txt (x + 8) (hy + 8) ha (-45)],
         10, 10)) := by
  constructor
  · intro y2r y1r c
    simp [slope_if]
  · intro txt ha x y hy
    have hne : (x + 10 : ℚ) ≠ x := by
      intro hcon
      have h10 : (10 : ℚ) = 0 := by linarith
      norm_num at h10
    have h1 : hy + 10 - hy = (10 : ℚ) := by ring
    have h2 : x + 10 - x = (10 : ℚ) := by ring
    have hs : slope_if (hy + 10) hy (x + 10) x = some 1 := by
      rw [slope_if, if_pos hne, h1, h2]
      norm_num
    simp only [draw_text, hs]
    rw [if_pos (by norm_num : (1 : ℚ) ≠ 0)]
    simp only [draw_line, List.cons_append, List.nil_append, Prod.mk.injEq,
      List.cons.injEq, Prim.line.injEq, Prim.text.injEq]
    repeat' apply And.intro
    all_goals first | rfl | ring_nf

/-- C10: for a PP with an IN child and an NP child, `process_pp` returns
the constant bounding box `(20, 10)` of line 344, whatever width `ow` the
recursive layout of its object NP actually consumed. -/
theorem C10_pp_constant_box (fuel : Nat) (lab : String) (cs : List PTree)
    (x y hy : ℚ) (prep obj : PTree) (op : List Prim) (ow oh : ℚ)
    (hprep : (cs.filter (fun c => c.label == "IN")).head? = some prep)
    (hobj : (cs.filter (fun c => c.label == "NP")).head? = some obj)
    (hrec : process_np fuel obj (x + 10) y = some (op, ow, oh)) :
    process_pp (fuel + 1) (.node lab cs) x y hy =
      some ((draw_text (joinLeaves prep) (x + 5) (y + 10) "center" true (some hy)).1 ++ op ++
        draw_line (x + 5, y + 10) (x + 10, y) .dashed, 20, 10) := by
  simp [process_pp, hprep, hobj, hrec]
  norm_num

/-- C10 witness: a PP whose object NP spans 30 units (three JJ modifiers),
so its geometry reaches x = 40 while the reported box ends at x + 20 = 20:
the emitted baseline `Prim.line 10 0 40 0` lies outside the claimed
bounding box. -/
theorem C10_witness :
    ∃ op ow oh,
      process_np 2 np_wide_tree (0 + 10) 0 = some (op, ow, oh) ∧
      process_pp (2 + 1) pp_wide_tree 0 0 0 =
        some ((draw_text (joinLeaves (PTree.node "IN" [PTree.leaf "in"])) (0 + 5) (0 + 10)
            "center" true (some 0)).1 ++ op ++
          draw_line (0 + 5, 0 + 10) (0 + 10, 0) .dashed, 20, 10) ∧
      Prim.line 10 0 40 0 .solid ∈ op ∧ (0 : ℚ) + 20 < 40 := by
  rcases hev : process_np 2 np_wide_tree (0 + 10) 0 with _ | ⟨op, ow, oh⟩
  · exact absurd hev (by with_unfolding_all decide)
  · refine ⟨op, ow, oh, rfl, ?_, ?_, by norm_num⟩
    · exact C10_pp_constant_box 2 "PP" [PTree.node "IN" [PTree.leaf "in"], np_wide_tree]
        0 0 0 (PTree.node "IN" [PTree.leaf "in"]) np_wide_tree op ow oh
        (by decide) (by decide) hev
    · have hmem : Prim.line 10 0 40 0 .solid ∈ prims_of (process_np 2 np_wide_tree (0 + 10) 0) := by
        with_unfolding_all decide
      rw [hev] at hmem
      simpa [prims_of] using hmem

/-- C9: a failing sentence in a batch is recorded as an error entry in its
own slot of the results list while every other sentence keeps its diagram:
the POST loop of `index` wraps `generate_diagram` per sentence. -/
theorem C9_batch_isolation
    (split : String → List String) (parse : String → PTree) (fuel : Nat)
    (input style : String) (sents : List String)
    (hcheck : check_input input = none) (hsplit : split input = sents)
    (i j : Nat) (hi : i < sents.length) (hj : j < sents.length)
    (e : String) (d : DiagramOut)
    (herr : generate_diagram fuel (parse (sents.get ⟨i, hi⟩)) style = .error e)
    (hok : generate_diagram fuel (parse (sents.get ⟨j, hj⟩)) style = .ok d) :
    (index_post split parse fuel input style).length = sents.length ∧
    (index_post split parse fuel input style).get? i = some (sents.get ⟨i, hi⟩, .err e) ∧
    (index_post split parse fuel input style).get? j = some (sents.get ⟨j, hj⟩, .diagram d) := by
  unfold index_post
  rw [hcheck, hsplit]
  refine ⟨by simp, ?_, ?_⟩
  · rw [List.get?_map, List.get?_eq_get hi]
    simp only [Option.map_some']
    rw [herr]
  · rw [List.get?_map, List.get?_eq_get hj]
    simp only [Option.map_some']
    rw [hok]

/-- C9 witness: a two-sentence batch in which the second sentence's layout
fails and the first still gets its diagram. -/
theorem C9_witness :
    ∃ e d,
      generate_diagram 10 (parse_demo "bad") "reed-kellogg" = .error e ∧
      generate_diagram 10 (parse_demo "ok") "reed-kellogg" = .ok d ∧
      (index_post split_demo parse_demo 10 "two" "reed-kellogg").length = 2 ∧
      (index_post split_demo parse_demo 10 "two" "reed-kellogg").get? 1 = some ("bad", .err e) ∧
      (index_post split_demo parse_demo 10 "two" "reed-kellogg").get? 0 = some ("ok", .diagram d) := by
  rcases herr : generate_diagram 10 (parse_demo "bad") "reed-kellogg" with ⟨e⟩ | ⟨d⟩
  · rcases hok : generate_diagram 10 (parse_demo "ok") "reed-kellogg" with ⟨e2⟩ | ⟨d⟩
    · have hgood : diag_is_ok (generate_diagram 10 (parse_demo "ok") "reed-kellogg") = true := by
        with_unfolding_all decide
      rw [hok] at hgood
      simp [diag_is_ok] at hgood
    · obtain ⟨hlen, h1, h0⟩ := C9_batch_isolation split_demo parse_demo 10 "two" "reed-kellogg"
        ["ok", "bad"] (by decide) rfl 1 0 (by decide) (by decide) e d herr hok
      exact ⟨e, d, rfl, rfl, hlen, h1, h0⟩
  · have hfail : diag_is_ok (generate_diagram 10 (parse_demo "bad") "reed-kellogg") = false := by
      with_unfolding_all decide
    rw [herr] at hfail
    simp [diag_is_ok] at hfail

/-- C7: on an S node with a CC child, `process_s` stacks the S children at
x with y-offsets `y + 30·i`, returns width = the `max`-fold of the
children's widths (from 0) and height = the sum of their heights, and
every non-final clause gets dashed connector segments on both sides of the
conjunction label. -/
theorem C7_coordinated_clauses (fuel : Nat) (lab : String) (cs : List PTree)
    (x y : ℚ) (P : List Prim) (W H : ℚ)
    (hcc : cs.any (fun c => c.label == "CC") = true)
    (hres : process_s (fuel + 1) (.node lab cs) x y = some (P, W, H)) :
    ∃ rs : List (List Prim × ℚ × ℚ),
      List.Forall₂
        (fun (it : Nat × PTree) r => process_s fuel it.2 x (y + (it.1 : ℚ) * 30) = some r)
        (cs.filter (fun c => c.label == "S")).enum rs ∧
      W = (rs.map (fun r => r.2.1)).foldl py_max 0 ∧
      H = (rs.map (fun r => r.2.2)).sum ∧
      (∀ it ∈ (cs.filter (fun c => c.label == "S")).enum,
        it.1 < (cs.filter (fun c => c.label == "S")).length - 1 →
        Prim.line (x - 5) (y + (it.1 : ℚ) * 30) (x - 5) (y + (it.1 : ℚ) * 30 + 15) .dashed ∈ P ∧
        Prim.line (x + 5) (y + (it.1 : ℚ) * 30 + 15) (x + 5) (y + (it.1 : ℚ) * 30 + 30)
          .dashed ∈ P) := by
  simp only [process_s] at hres
  rw [hcc] at hres
  simp only [if_true] at hres
  obtain ⟨cc0, _hcc0, hres⟩ := Option.bind_eq_some.mp hres
  obtain ⟨rs, hall, hW, hH, _hext, hconn⟩ :=
    s_cc_loop_spec (fun s a b => process_s fuel s a b) (joinLeaves cc0) x y
      (cs.filter (fun c => c.label == "S")).length
      (cs.filter (fun c => c.label == "S")).enum ([], 0, 0) P W H hres
  exact ⟨rs, hall, by simpa using hW, by simpa using hH, hconn⟩

/-- C7 witness: the coordinated pair `(S (S he ran) (CC and) (S she spun))`. -/
theorem C7_witness :
    ∃ P W H rs, process_s (9 + 1) s_coord_tree 0 0 = some (P, W, H) ∧
      List.Forall₂
        (fun (it : Nat × PTree) r => process_s 9 it.2 0 (0 + (it.1 : ℚ) * 30) = some r)
        ((s_coord_tree.children.filter (fun c => c.label == "S")).enum) rs ∧
      W = (rs.map (fun r => r.2.1)).foldl py_max 0 ∧
      H = (rs.map (fun r => r.2.2)).sum := by
  rcases hev : process_s (9 + 1) s_coord_tree 0 0 with _ | ⟨P, W, H⟩
  · exact absurd hev (by with_unfolding_all decide)
  · obtain ⟨rs, h1, h2, h3, _h4⟩ := C7_coordinated_clauses 9 "S" s_coord_tree.children 0 0
      P W H (by decide) hev
    exact ⟨P, W, H, rs, rfl, h1, h2, h3⟩

/-- C4 counterexample: on `(S (NP (NN John)) (VP (VBD ate) (NP (NN cake))))`
the divider drawn at the direct object is the slanted segment from
`(22, -6)` to `(26, 0)` — its endpoints do not share an x-coordinate — and
the output contains no non-piercing *vertical* tick touching the baseline
y = 0 at all, contradicting the claimed vertical-tick convention. -/
theorem C4_counterexample :
    Prim.line 22 (-6) 26 0 .solid ∈ prims_of (process_s 10 s_svo_tree 0 0) ∧
    (prims_of (process_s 10 s_svo_tree 0 0)).all (fun p => !(isVertTickAt 0 p)) = true ∧
    (22 : ℚ) ≠ 26 := by
  with_unfolding_all decide

/-- C4 (amended): for a non-coordinated S whose VP has exactly one NP
complement, the subject/predicate divider is the solid vertical segment at
`x + subject_width + 2` spanning strictly above (`y - 6`, before the final
y-inversion) and strictly below (`y + 3`) the baseline, while the
verb/direct-object divider is the solid *slanted* segment from
`(c - 2, y - 6)` to `(c + 2, y)` — it touches the baseline at one endpoint
without crossing it but is not vertical — and the two are never equal. -/
theorem C4_amended (fuel : Nat) (lab : String) (cs : List PTree) (x y : ℚ)
    (P : List Prim) (W H : ℚ) (vlab : String) (vcs : List PTree) (obj : PTree)
    (hcc : cs.any (fun c => c.label == "CC") = false)
    (hvp : (cs.filter (fun c => c.label == "VP")).head? = some (.node vlab vcs))
    (hobj : ((vcs.filter (fun c => c.label ∈ ["NP", "ADJP"])).filter
      (fun c => c.label == "NP")) = [obj])
    (hres : process_s (fuel + 1) (.node lab cs) x y = some (P, W, H)) :
    ∃ sw c,
      Prim.line (x + sw + 2) (y + 3) (x + sw + 2) (y - 6) .solid ∈ P ∧
      Prim.line (c - 2) (y - 6) (c + 2) y .solid ∈ P ∧
      y - 6 < y ∧ y < y + 3 ∧
      Prim.line (x + sw + 2) (y + 3) (x + sw + 2) (y - 6) .solid ≠
        Prim.line (c - 2) (y - 6) (c + 2) y .solid := by
  simp only [process_s] at hres
  rw [hcc] at hres
  simp only [Bool.false_eq_true, if_false] at hres
  obtain ⟨np0, _hnp0, hres⟩ := Option.bind_eq_some.mp hres
  obtain ⟨vp0, hvp0, hres⟩ := Option.bind_eq_some.mp hres
  have hvp0' : vp0 = .node vlab vcs := by
    rw [hvp] at hvp0
    exact (Option.some.inj hvp0).symm
  subst hvp0'
  obtain ⟨⟨sp, sw, sh⟩, _hsubj, hres⟩ := Option.bind_eq_some.mp hres
  obtain ⟨⟨ap, pmw, mx⟩, _hmods, hres⟩ := Option.bind_eq_some.mp hres
  obtain ⟨⟨vpp, pw, ph⟩, hvpr, hres⟩ := Option.bind_eq_some.mp hres
  obtain ⟨⟨sbp, sx⟩, _hsbar, hres⟩ := Option.bind_eq_some.mp hres
  simp only [Option.some.injEq, Prod.mk.injEq] at hres
  obtain ⟨hP, hW, hH⟩ := hres
  subst hP
  cases fuel with
  | zero => simp [process_vp] at hvpr
  | succ f =>
    simp only [process_vp] at hvpr
    obtain ⟨⟨mp2, tmw2, mx2⟩, _hm2, hvpr⟩ := Option.bind_eq_some.mp hvpr
    obtain ⟨⟨cp, cx⟩, hcomp, hvpr⟩ := Option.bind_eq_some.mp hvpr
    simp only [Option.some.injEq, Prod.mk.injEq] at hvpr
    obtain ⟨hvpp, _hpw, _hph⟩ := hvpr
    subst hvpp
    cases f with
    | zero => simp [vp_complements] at hcomp
    | succ g =>
      simp only [vp_complements] at hcomp
      rw [hobj] at hcomp
      have hobjmem : obj ∈ vcs.filter (fun c => c.label ∈ ["NP", "ADJP"]) := by
        have hm : obj ∈ (vcs.filter (fun c => c.label ∈ ["NP", "ADJP"])).filter
            (fun c => c.label == "NP") := by
          rw [hobj]
          exact List.mem_singleton.mpr rfl
        exact List.mem_of_mem_filter hm
      have hobjlab : (obj.label == "NP") = true := by
        have hm : obj ∈ (vcs.filter (fun c => c.label ∈ ["NP", "ADJP"])).filter
            (fun c => c.label == "NP") := by
          rw [hobj]
          exact List.mem_singleton.mpr rfl
        exact (List.mem_filter.mp hm).2
      obtain ⟨c, p, w2, h2, htick, _hpn, _hsub⟩ :=
        vp_comps_loop_np_spec (fun s a b => process_np g s a b)
          (fun s a b => process_adjp g s a b) y _ _ _ _ hcomp obj hobjmem hobjlab
      refine ⟨sw, c, ?_, ?_, by linarith, by linarith, ?_⟩
      · simp [draw_line]
      · simp only [List.mem_append]
        tauto
      · intro heq
        rw [Prim.line.injEq] at heq
        obtain ⟨_, h2', _⟩ := heq
        linarith

/-- C4 witness: the amended theorem at the concrete subject-verb-object
sentence. -/
theorem C4_amended_witness :
    ∃ P W H sw c, process_s (9 + 1) s_svo_tree 0 0 = some (P, W, H) ∧
      Prim.line (0 + sw + 2) (0 + 3) (0 + sw + 2) (0 - 6) .solid ∈ P ∧
      Prim.line (c - 2) (0 - 6) (c + 2) 0 .solid ∈ P ∧
      ((0 : ℚ) - 6 < 0) ∧ ((0 : ℚ) < 0 + 3) ∧
      Prim.line (0 + sw + 2) (0 + 3) (0 + sw + 2) (0 - 6) .solid ≠
        Prim.line (c - 2) (0 - 6) (c + 2) 0 .solid := by
  rcases hev : process_s (9 + 1) s_svo_tree 0 0 with _ | ⟨P, W, H⟩
  · exact absurd hev (by with_unfolding_all decide)
  · obtain ⟨sw, c, h1, h2, h3, h4, h5⟩ := C4_amended 9 "S"
      [PTree.node "NP" [PTree.node "NN" [PTree.leaf "John"]],
       PTree.node "VP" [PTree.node "VBD" [PTree.leaf "ate"],
         PTree.node "NP" [PTree.node "NN" [PTree.leaf "cake"]]]]
      0 0 P W H "VP"
      [PTree.node "VBD" [PTree.leaf "ate"], PTree.node "NP" [PTree.node "NN" [PTree.leaf "cake"]]]
      (PTree.node "NP" [PTree.node "NN" [PTree.leaf "cake"]])
      (by decide) (by decide) (by decide) hev
    exact ⟨P, W, H, sw, c, rfl, h1, h2, h3, h4, h5⟩

/-- C5: for a VP with exactly two NP complements, the first is the indirect
object: a solid diagonal drops from the verb baseline at `c0` to
`(c0 + 10, y + 10)` and the indirect object is recursively laid out by
`process_np` on that sub-baseline; the second is the direct object,
attached after a non-piercing *vertical* tick at `c0 + 12` that runs from
`y - 6` to `y` (touching the baseline without crossing it) and recursively
laid out by `process_np` on the verb baseline at `c0 + 14`. -/
theorem C5_ditransitive (fuel : Nat) (lab : String) (cs : List PTree) (x y : ℚ)
    (P : List Prim) (W H : ℚ) (io dobj : PTree)
    (hobj : ((cs.filter (fun c => c.label ∈ ["NP", "ADJP"])).filter
      (fun c => c.label == "NP")) = [io, dobj])
    (hres : process_vp (fuel + 1) (.node lab cs) x y = some (P, W, H)) :
    ∃ (f g : Nat) (c0 : ℚ) (iop dop : List Prim) (iw ihh dw dh : ℚ),
      fuel = f + 1 ∧ f = g + 1 ∧
      Prim.line c0 y (c0 + 10) (y + 10) .solid ∈ P ∧
      process_np g io (c0 + 10) (y + 10) = some (iop, iw, ihh) ∧ (∀ q ∈ iop, q ∈ P) ∧
      Prim.line (c0 + 10 + 2) (y - 6) (c0 + 10 + 2) y .solid ∈ P ∧
      process_np f dobj (c0 + 10 + 4) y = some (dop, dw, dh) ∧ (∀ q ∈ dop, q ∈ P) := by
  simp only [process_vp] at hres
  obtain ⟨⟨mp, tmw, mx⟩, _hm, hres⟩ := Option.bind_eq_some.mp hres
  obtain ⟨⟨cp, cx⟩, hcomp, hres⟩ := Option.bind_eq_some.mp hres
  simp only [Option.some.injEq, Prod.mk.injEq] at hres
  obtain ⟨hP, _hW, _hH⟩ := hres
  subst hP
  cases fuel with
  | zero => simp [vp_complements] at hcomp
  | succ f =>
    simp only [vp_complements] at hcomp
    rw [hobj] at hcomp
    obtain ⟨⟨iopF, iw0, ih0⟩, hio, hcomp⟩ := Option.bind_eq_some.mp hcomp
    obtain ⟨⟨dop, dw, dh⟩, hdo, hcomp⟩ := Option.bind_eq_some.mp hcomp
    obtain ⟨t, ht⟩ := vp_extra_adjp_loop_extends _ y _ _ _ hcomp
    cases f with
    | zero => simp [process_indirect_object] at hio
    | succ g =>
      simp only [process_indirect_object] at hio
      obtain ⟨⟨iop, iw, ihh⟩, hionp, hio⟩ := Option.bind_eq_some.mp hio
      simp only [Option.some.injEq, Prod.mk.injEq] at hio
      obtain ⟨hiop, hiw, hih⟩ := hio
      subst hiop
      refine ⟨g + 1, g, _, iop, dop, iw, ihh, dw, dh, rfl, rfl, ?_, hionp, ?_, ?_, hdo, ?_⟩
      · rw [show cp = (cp, cx).1 from rfl, ht]
        simp [draw_line, List.mem_append]
      · intro q hq
        rw [show cp = (cp, cx).1 from rfl, ht]
        simp only [List.mem_append]
        tauto
      · rw [show cp = (cp, cx).1 from rfl, ht]
        simp [draw_line, List.mem_append]
      · intro q hq
        rw [show cp = (cp, cx).1 from rfl, ht]
        simp only [List.mem_append]
        tauto

/-- C5 witness: `(VP (VBD baked) (NP (PRP me)) (NP (NN cake)))`. -/
theorem C5_witness :
    ∃ P W H f g c0 iop dop iw ihh dw dh,
      process_vp (9 + 1) vp_ditrans_tree 0 0 = some (P, W, H) ∧
      (9 : Nat) = f + 1 ∧ f = g + 1 ∧
      Prim.line c0 0 (c0 + 10) (0 + 10) .solid ∈ P ∧
      process_np g (PTree.node "NP" [PTree.node "PRP" [PTree.leaf "me"]]) (c0 + 10) (0 + 10) =
        some (iop, iw, ihh) ∧
      Prim.line (c0 + 10 + 2) (0 - 6) (c0 + 10 + 2) 0 .solid ∈ P ∧
      process_np f (PTree.node "NP" [PTree.node "NN" [PTree.leaf "cake"]]) (c0 + 10 + 4) 0 =
        some (dop, dw, dh) := by
  rcases hev : process_vp (9 + 1) vp_ditrans_tree 0 0 with _ | ⟨P, W, H⟩
  · exact absurd hev (by with_unfolding_all decide)
  · obtain ⟨f, g, c0, iop, dop, iw, ihh, dw, dh, hf, hg, hd1, hd2, _hd3, hd4, hd5, _hd6⟩ :=
      C5_ditransitive 9 "VP"
        [PTree.node "VBD" [PTree.leaf "baked"],
         PTree.node "NP" [PTree.node "PRP" [PTree.leaf "me"]],
         PTree.node "NP" [PTree.node "NN" [PTree.leaf "cake"]]]
        0 0 P W H
        (PTree.node "NP" [PTree.node "PRP" [PTree.leaf "me"]])
        (PTree.node "NP" [PTree.node "NN" [PTree.leaf "cake"]])
        (by decide) hev
    exact ⟨P, W, H, f, g, c0, iop, dop, iw, ihh, dw, dh, rfl, hf, hg, hd1, hd2, hd4, hd5⟩
